import Mathlib

/-!
Verification development for the `fac` mod manager (a local package manager
for Factorio mods).  The Lean definitions below are a shallow embedding of
the Python sources:

  * `src/fac/mods.py`            — `Mod`, `ZippedMod`, `UnpackedMod`, `ModManager`
  * `src/fac/commands/install.py` — `InstallCommand.run`
  * `src/fac/commands/list.py`    — `ListCommand.run`

Filesystem state (the mods directory) is modelled as a list of directory
entries; the enable manifest (`mod-list.json`) as a list of entries; the
remote catalog (`self.api`) and the downloader as explicit parameters.
Every definition is executable.
-/

namespace Fac

/-! ## String helpers

The source manipulates file names as strings (glob patterns, `startswith`,
`splitext`).  These helpers work on `String.data` so that they reduce well
in the kernel. -/

/-- Python `needle in s` for a single character (used by the embedding of the
`'/' not in file_name` assertions and of glob matching). -/
def strContainsChar (s : String) (c : Char) : Bool :=
  s.data.contains c

/-- Python `s.startswith(p)` (also the semantics of a glob pattern `p*`). -/
def strPrefix (p s : String) : Bool :=
  p.data.isPrefixOf s.data

/-- Python `s.endswith(p)`. -/
def strSuffix (p s : String) : Bool :=
  p.data.reverse.isPrefixOf s.data.reverse

/-! ## Versions and requirement specifiers

Versions are dotted numeric tuples; comparison pads the shorter tuple with
zeros, matching `pkg_resources.parse_version` on plain numeric versions
(`"1.0" == "1.0.0"`, `"1.2" < "1.10"`). -/

/-- A parsed dotted numeric version, e.g. `[1, 2, 0]` for `"1.2.0"`. -/
abbrev Version := List Nat

/-- Numeric version comparison with zero padding: once one side runs out,
the comparison is decided by whether the remaining components of the other
side are all zero. -/
def vcompare : Version → Version → Ordering
  | [], b => if b.all (fun y => y == 0) then Ordering.eq else Ordering.lt
  | x :: xs, [] => if (x :: xs).all (fun y => y == 0) then Ordering.eq else Ordering.gt
  | x :: xs, y :: ys =>
    if x < y then Ordering.lt else if y < x then Ordering.gt else vcompare xs ys

/-- Rendering of a version back to its dotted string, used for the on-disk
basename invariant `"%s_%s" % (name, version)`. -/
def showVersion (v : Version) : String :=
  String.intercalate "." (v.map (fun n => Nat.repr n))

/-- A version constraint of a requirement: one of the four supported forms
`name`, `name==v`, `name>=v`, `name<v`. -/
inductive Specifier where
  | any : Specifier
  | eqv (v : Version) : Specifier
  | ge (v : Version) : Specifier
  | lt (v : Version) : Specifier
deriving DecidableEq, Repr

/-- Python `version in spec` on a requirement's specifier. -/
def Specifier.contains : Specifier → Version → Bool
  | Specifier.any, _ => true
  | Specifier.eqv w, v => vcompare v w == Ordering.eq
  | Specifier.ge w, v => vcompare v w != Ordering.lt
  | Specifier.lt w, v => vcompare v w == Ordering.lt

/-- A parsed requirement (`fac.utils.parse_requirement` is outside the given
sources; requirements enter the embedded code already parsed).  An optional
dependency keeps its `?` prefix on the name, as the source tests
`depreq.name.startswith('?')`. -/
structure Requirement where
  name : String
  specifier : Specifier
deriving DecidableEq, Repr

/-! ## Remote catalog data -/

/-- The parsed `info.json` of a mod (embedded in a zip, an unpacked directory,
or a remote release). -/
structure InfoJson where
  name : String
  version : Version
  factorio_version : String
  dependencies : List Requirement
deriving DecidableEq, Repr

/-- One remote release, as returned by the catalog API. -/
structure Release where
  version : Version
  game_version : String
  download_url : String
  file_name : String
  file_size : Nat
  info_json : InfoJson
deriving DecidableEq, Repr

/-- A remote catalog entry for one mod name. -/
structure CatalogMod where
  releases : List Release
deriving DecidableEq, Repr

/-- The remote catalog (`self.api.get`): `none` models `ModNotFoundError`. -/
abbrev Catalog := String → Option CatalogMod

/-- The configuration object: mods path contents are modelled separately; the
config supplies the game versions and the hold list. -/
structure Config where
  game_version_major : String
  game_version : Version
  hold : List String

/-! ## The mods directory and the scan

A directory entry is either a zip file (`packed = true`, `basename` is the
file name without the `.zip` extension) or a directory (`packed = false`).
`info = none` models an entry whose `info.json` cannot be read or parsed
(constructing the `Mod` raises, and `Mod._find` skips it with a warning).
The list order models the order in which `glob` returns the entries. -/

structure DiskFile where
  basename : String
  packed : Bool
  info : Option InfoJson
deriving DecidableEq, Repr

abbrev ModsDir := List DiskFile

/-- A successfully constructed `Mod` object (`ZippedMod` / `UnpackedMod`). -/
structure Mod where
  info : InfoJson
  packed : Bool
  basename : String
deriving DecidableEq, Repr

/-- Glob matching for the patterns `Mod._find` builds:
`"%s_%s.zip" % (name or '*', version or '*')` and `"%s_%s/"`.
Only the basename part varies between the two patterns, so one matcher
serves both. -/
def globMatch (nameFilt : Option String) (verFilt : Option Version) (basename : String) : Bool :=
  match nameFilt, verFilt with
  | some n, some v => basename == n ++ "_" ++ showVersion v
  | some n, none => strPrefix (n ++ "_") basename
  | none, some v => strSuffix ("_" ++ showVersion v) basename
  | none, none => strContainsChar basename '_'

/-- Constructing a `Mod` from a directory entry: reading `info.json` may fail
(`info = none`), and `Mod._check_valid` asserts
`basename == "%s_%s" % (name, version)`.  `none` models the exception that
`Mod._find` catches and turns into a warning. -/
def scanMod (f : DiskFile) : Option Mod :=
  match f.info with
  | none => none
  | some i =>
    if f.basename == i.name ++ "_" ++ showVersion i.version then
      some { info := i, packed := f.packed, basename := f.basename }
    else
      none

/-- `Mod._find` specialised to one of `ZippedMod.find` (`pk = true`) or
`UnpackedMod.find` (`pk = false`): glob, construct, skip invalid. -/
def findRecords (dir : ModsDir) (pk : Bool) (nameFilt : Option String)
    (verFilt : Option Version) : List Mod :=
  (dir.filter (fun f => f.packed == pk && globMatch nameFilt verFilt f.basename)).filterMap scanMod

/-- `ModManager.get_mods`: zipped records first, then unpacked ones. -/
def get_mods (dir : ModsDir) (nameFilt : Option String) (verFilt : Option Version) : List Mod :=
  findRecords dir true nameFilt verFilt ++ findRecords dir false nameFilt verFilt

/-- `ModManager.get_mod`: first scan result whose name matches exactly. -/
def get_mod (dir : ModsDir) (name : String) : Option Mod :=
  (get_mods dir (some name) none).find? (fun m => m.info.name == name)

/-- Modelled from the spec: `ModManager.get_installed_mods` is called by
`resolve_local_requirement` (src/fac/mods.py line 213) but is not defined in
the provided source files; only its caller is.  Per the spec (§4.3,
`resolve_local`), it produces the "local scan results (across all installed
versions of the name)"; the caller reads `info.version` and
`info.factorio_version` of each result, so the scan yields each installed
record's `info.json` metadata. -/
def get_installed_mods (dir : ModsDir) (name : String) : List InfoJson :=
  ((get_mods dir (some name) none).filter (fun m => m.info.name == name)).map (fun m => m.info)

/-- `ModManager.resolve_remote_requirement` (src/fac/mods.py lines 199-207). -/
def resolve_remote_requirement (cfg : Config) (api : Catalog) (req : Requirement) :
    Except Unit (List Release) :=
  match api req.name with
  | none => Except.error ()
  | some m =>
    Except.ok (m.releases.filter (fun release =>
      req.specifier.contains release.version && release.game_version == cfg.game_version_major))

/-- `ModManager.resolve_local_requirement` (src/fac/mods.py lines 209-215). -/
def resolve_local_requirement (cfg : Config) (dir : ModsDir) (req : Requirement) :
    List InfoJson :=
  (get_installed_mods dir req.name).filter (fun info =>
    req.specifier.contains info.version && info.factorio_version == cfg.game_version_major)

/-! ## The enable manifest (`mod-list.json`) -/

/-- One entry of the `mods` list of `mod-list.json`.  This fork of the code
stores the enabled flag as the *string* `'true'` / `'false'` (an entry just
created by `set_mod_enabled` transiently holds `''`). -/
structure ModJson where
  name : String
  enabled : String
deriving DecidableEq, Repr

/-- `ModManager.get_mod_json`: first entry of `mod-list.json` with the name. -/
def get_mod_json (manifest : List ModJson) (name : String) : Option ModJson :=
  manifest.find? (fun m => m.name == name)

/-- A Python value as it occurs in the comparison on line 230 of
src/fac/mods.py (`enabled != mod.enabled`): the left operand is the `bool`
argument, the right one the string stored in the manifest entry. -/
inductive PyVal where
  | bool (b : Bool) : PyVal
  | str (s : String) : PyVal
deriving DecidableEq, Repr

/-- Python `==` between these values: values of different types compare
unequal (`True == 'true'` is `False` in Python). -/
def pyEq : PyVal → PyVal → Bool
  | PyVal.bool a, PyVal.bool b => a == b
  | PyVal.str a, PyVal.str b => a == b
  | PyVal.bool _, PyVal.str _ => false
  | PyVal.str _, PyVal.bool _ => false

/-- `ModManager.is_mod_enabled` (src/fac/mods.py lines 217-222). -/
def is_mod_enabled (manifest : List ModJson) (name : String) : Bool :=
  match get_mod_json manifest name with
  | some m => m.enabled != "false"
  | none => true

/-- In-place mutation of the first manifest entry with the given name
(`mod.enabled = ...` mutates the shared dict found by `get_mod_json`). -/
def updateFirst (manifest : List ModJson) (name : String) (val : String) : List ModJson :=
  match manifest with
  | [] => []
  | m :: rest =>
    if m.name == name then { m with enabled := val } :: rest
    else m :: updateFirst rest name val

/-- Result of `ModManager.set_mod_enabled`: the in-memory manifest afterwards,
whether `mods_json.save()` ran, and the Python return value. -/
structure SetEnabledResult where
  manifest : List ModJson
  saved : Bool
  changed : Bool
deriving DecidableEq, Repr

/-- `ModManager.set_mod_enabled` (src/fac/mods.py lines 224-235).  The guard
on line 230 is Python `enabled != mod.enabled` where `enabled` is the `bool`
argument and `mod.enabled` the stored string. -/
def set_mod_enabled (manifest : List ModJson) (name : String) (enabled : Bool) :
    SetEnabledResult :=
  match get_mod_json manifest name with
  | some m =>
    if !(pyEq (PyVal.bool enabled) (PyVal.str m.enabled)) then
      { manifest := updateFirst manifest name (if enabled then "true" else "false")
        saved := true, changed := true }
    else
      { manifest := manifest, saved := false, changed := false }
  | none =>
    if !(pyEq (PyVal.bool enabled) (PyVal.str "")) then
      { manifest := manifest ++ [{ name := name, enabled := if enabled then "true" else "false" }]
        saved := true, changed := true }
    else
      { manifest := manifest ++ [{ name := name, enabled := "" }]
        saved := false, changed := false }

/-! ## `ModManager.install_mod` -/

/-- The exceptions `install_mod` (and the operations it invokes) can raise. -/
inductive InstallError where
  | assertionError (msg : String) : InstallError
  | sizeMismatch (got expected : Nat) : InstallError
  | fileExists (basename : String) : InstallError
deriving DecidableEq, Repr

/-- The local state `install_mod` mutates: the mods directory and the
in-memory enable manifest. -/
structure FacState where
  dir : ModsDir
  manifest : List ModJson
deriving DecidableEq, Repr

/-- `open(file_path, 'wb')` on the mods path: overwrite an existing zip of
the same basename, otherwise create a new directory entry.  The zip just
written is the downloaded release archive, whose embedded `info.json` is the
release's `info_json` (§6 of the spec: the archive layout contains
`{basename}/info.json`). -/
def writeZip (dir : ModsDir) (b : String) (i : InfoJson) : ModsDir :=
  if dir.any (fun f => f.packed && f.basename == b) then
    dir.map (fun f => if f.packed && f.basename == b then ⟨b, true, some i⟩ else f)
  else
    dir ++ [⟨b, true, some i⟩]

/-- `Mod.remove`: `os.remove` for a zip, `shutil.rmtree` for a directory. -/
def removeRecord (dir : ModsDir) (b : String) (pk : Bool) : ModsDir :=
  dir.filter (fun f => !(f.basename == b && f.packed == pk))

/-- `os.path.splitext(...)[0]` for a name ending in `.zip`: drop the
extension, except that a name whose whole stem is dots (e.g. `".zip"`) has no
extension in Python's splitext. -/
def splitextStem (s : String) : String :=
  let stem := s.data.take (s.data.length - 4)
  if stem.all (fun c => c == '.') then s else ⟨stem⟩

/-- `ModManager.install_mod` (src/fac/mods.py lines 284-335).  `dataLen` is
the byte count returned by the downloader (`len(req.content)`); the download
itself and the login flow are external collaborators and do not touch the
mods directory.  Returns the raised exception (if any) together with the
state as left behind at that point.  (The source method uses its config only
through `mods_path`, which the `ModsDir` value already stands for, so no
`Config` parameter appears here.) -/
def install_mod (st : FacState) (release : Release) (dataLen : Nat)
    (enable : Option Bool) (unpackArg : Option Bool) : Option InstallError × FacState :=
  let file_name := release.file_name
  let mod_name := release.info_json.name
  if strContainsChar file_name '/' then
    (some (InstallError.assertionError "slash in file name"), st)
  else if strContainsChar file_name '\\' then
    (some (InstallError.assertionError "backslash in file name"), st)
  else if !(strSuffix ".zip" file_name) then
    (some (InstallError.assertionError "file name does not end in .zip"), st)
  else
    let installed_mod := (get_mods st.dir (some mod_name) none).head?
    let unpack : Option Bool :=
      match unpackArg, installed_mod with
      | none, some m => some (!m.packed)
      | none, none => none
      | some u, _ => some u
    if dataLen != release.file_size then
      (some (InstallError.sizeMismatch dataLen release.file_size), st)
    else
      let b := splitextStem file_name
      let dir1 := writeZip st.dir b release.info_json
      if b != release.info_json.name ++ "_" ++ showVersion release.info_json.version then
        (some (InstallError.assertionError "invalid file name"), { st with dir := dir1 })
      else
        let dir2 := match installed_mod with
          | some im =>
            if im.basename != b || !im.packed then removeRecord dir1 im.basename im.packed
            else dir1
          | none => dir1
        let manifest2 := match enable with
          | some e => (set_mod_enabled st.manifest mod_name e).manifest
          | none => st.manifest
        if unpack == some true then
          if dir2.any (fun f => !f.packed && f.basename == b) then
            (some (InstallError.fileExists b), { dir := dir2, manifest := manifest2 })
          else
            (none, { dir := removeRecord (dir2 ++ [⟨b, false, some release.info_json⟩]) b true
                     manifest := manifest2 })
        else
          (none, { dir := dir2, manifest := manifest2 })

/-! ## `InstallCommand.run` (src/fac/commands/install.py) -/

/-- The command-line options of `fac install`. -/
structure Args where
  held : Bool
  reinstall : Bool
  downgrade : Bool
  no_deps : Bool
  unpack : Option Bool
deriving DecidableEq, Repr

/-- The dependency-expansion loop (src/fac/commands/install.py lines 96-134)
for one candidate release.  Besides `deps_ok` and `deps_to_install`, the
result records which names were passed to `resolve_local_requirement` and to
`resolve_remote_requirement` while expanding, so that theorems can speak
about which requirements were (never) resolved against the catalog. -/
structure DepExpansion where
  deps_ok : Bool
  deps_to_install : List Release
  local_queries : List String
  remote_queries : List String
deriving DecidableEq, Repr

/-- Lines 99-134 of src/fac/commands/install.py: skip optional dependencies
(`?` prefix), validate `base` against `config.game_version`, try
`resolve_local_requirement`, then `resolve_remote_requirement`, keeping only
the first remote release; any failure breaks the loop with `deps_ok = False`. -/
def expandDeps (cfg : Config) (dir : ModsDir) (api : Catalog) :
    List Requirement → DepExpansion
  | [] => ⟨true, [], [], []⟩
  | depreq :: rest =>
    if strPrefix "?" depreq.name then
      expandDeps cfg dir api rest
    else if depreq.name == "base" then
      if depreq.specifier.contains cfg.game_version then expandDeps cfg dir api rest
      else ⟨false, [], [], []⟩
    else if !(resolve_local_requirement cfg dir depreq).isEmpty then
      let r := expandDeps cfg dir api rest
      { r with local_queries := depreq.name :: r.local_queries }
    else
      match resolve_remote_requirement cfg api depreq with
      | Except.error _ => ⟨false, [], [depreq.name], [depreq.name]⟩
      | Except.ok [] => ⟨false, [], [depreq.name], [depreq.name]⟩
      | Except.ok (deprel :: _) =>
        let r := expandDeps cfg dir api rest
        ⟨r.deps_ok, deprel :: r.deps_to_install,
         depreq.name :: r.local_queries, depreq.name :: r.remote_queries⟩

/-- Lines 73-90 of src/fac/commands/install.py: `True` when the candidate is
dropped because the same version is already installed (without `--reinstall`),
or an older version would be a downgrade (without `--downgrade`). -/
def releaseSkipped (args : Args) (local_mod : Option Mod) (release : Release) : Bool :=
  match local_mod with
  | some lm =>
    if !args.reinstall && (vcompare release.version lm.info.version == Ordering.eq) then true
    else if !args.downgrade && (vcompare release.version lm.info.version == Ordering.lt) then
      true
    else false
  | none => false

/-- The `for release in releases` loop (lines 72-139): the list of releases
this requirement contributes to `to_install`.  When `releaseSkipped` fires the
source executes `break`, ending the loop with no contribution; when all
dependencies of a candidate resolve, the contribution is the needed dependency
releases followed by the candidate, and the loop breaks. -/
def tryReleases (cfg : Config) (args : Args) (dir : ModsDir) (api : Catalog)
    (local_mod : Option Mod) : List Release → List Release
  | [] => []
  | release :: rest =>
    if releaseSkipped args local_mod release then []
    else
      let deps := if args.no_deps then [] else release.info_json.dependencies
      let expansion := expandDeps cfg dir api deps
      if expansion.deps_ok then expansion.deps_to_install ++ [release]
      else tryReleases cfg args dir api local_mod rest

/-- Outcome of processing one top-level requirement. -/
inductive ReqResult where
  | modMissing : ReqResult
  | held : ReqResult
  | noMatch : ReqResult
  | plan (releases : List Release) : ReqResult
deriving DecidableEq, Repr

/-- One iteration of the `for req in args.requirement` loop
(src/fac/commands/install.py lines 52-139): remote resolution (a missing mod
is reported and skipped), then the hold check, then the empty-candidate
check, then the candidate loop. -/
def processRequirement (cfg : Config) (args : Args) (dir : ModsDir) (api : Catalog)
    (req : Requirement) : ReqResult :=
  match resolve_remote_requirement cfg api req with
  | Except.error _ => ReqResult.modMissing
  | Except.ok releases =>
    if !args.held && cfg.hold.contains req.name then ReqResult.held
    else if releases.isEmpty then ReqResult.noMatch
    else
      let local_mod := get_mod dir req.name
      ReqResult.plan (tryReleases cfg args dir api local_mod releases)

/-! ## `ListCommand.run` (src/fac/commands/list.py) -/

/-- A Python generator object together with the elements it will yield.
A generator defines neither `__bool__` nor `__len__`, so the object is truthy
regardless of what it would yield — that is Python semantics, captured by
`toBool`. -/
structure PyGenerator (α : Type) where
  elems : List α

/-- Python truthiness of a generator object. -/
def PyGenerator.toBool {α : Type} (_g : PyGenerator α) : Bool := true

/-- Lexicographic `<=` on strings, via the character codes. -/
def strLe (a b : String) : Bool :=
  go a.data b.data
where
  go : List Char → List Char → Bool
    | [], _ => true
    | _ :: _, [] => false
    | c :: cs, d :: ds =>
      if c.val < d.val then true
      else if d.val < c.val then false
      else go cs ds

/-- Stable insertion into a sorted list: the new element goes in front of the
first element it is `<=` to, so earlier elements with an equal key stay in
front (the stability guarantee of Python's `sorted`). -/
def insertSorted {α : Type} (le : α → α → Bool) (x : α) : List α → List α
  | [] => [x]
  | y :: ys => if le x y then x :: y :: ys else y :: insertSorted le x ys

/-- Stable sort modelling Python's `sorted`. -/
def sortPy {α : Type} (le : α → α → Bool) : List α → List α
  | [] => []
  | x :: xs => insertSorted le x (sortPy le xs)

/-- The sort key of src/fac/commands/list.py line 17 — the tuple
`(not m.enabled, m.name)` — turned into a `<=` test. -/
def listKeyLe (manifest : List ModJson) (a b : Mod) : Bool :=
  let ka := !(is_mod_enabled manifest a.info.name)
  let kb := !(is_mod_enabled manifest b.info.name)
  (ka == false && kb == true) || (ka == kb && strLe a.info.name b.info.name)

/-- `ListCommand.run` (src/fac/commands/list.py lines 9-30): the sequence of
lines the command prints. -/
def list_run (dir : ModsDir) (manifest : List ModJson) : List String :=
  let mods : PyGenerator Mod := ⟨get_mods dir none none⟩
  if mods.toBool == false then
    ["No installed mods."]
  else
    "Installed mods:" ::
    (sortPy (listKeyLe manifest) mods.elems).map (fun m =>
      let tags : List String :=
        (if !(is_mod_enabled manifest m.info.name) then ["disabled"] else []) ++
        (if !m.packed then ["unpacked"] else [])
      let tagStr := if tags.isEmpty then "" else " (" ++ String.intercalate ", " tags ++ ")"
      "    " ++ m.info.name ++ " " ++ showVersion m.info.version ++ tagStr)

/-! ## Derived notions used by the theorems -/

/-- Directory entry whose embedded `info.json` names the given mod. -/
def isNameRecord (name : String) (f : DiskFile) : Bool :=
  match f.info with
  | some i => i.name == name
  | none => false

/-- Directory entry satisfying the on-disk invariant
`basename == "%s_%s" % (name, version)` checked by `Mod._check_valid`;
entries violating it are corrupt and rejected by every scan. -/
def wellFormedRecord (f : DiskFile) : Bool :=
  match f.info with
  | some i => f.basename == i.name ++ "_" ++ showVersion i.version
  | none => false

/-- The on-disk records of the given mod name, in the sense of the spec: the
entries a directory scan recognises as (packed or unpacked) records of that
mod. -/
def validRecords (dir : ModsDir) (name : String) : List DiskFile :=
  dir.filter (fun f => wellFormedRecord f && isNameRecord name f)

/-! ## Concrete example data used by witnesses and counterexamples -/

def exInfo10 : InfoJson := ⟨"foo", [1, 0], "1.1", []⟩

def exInfo11 : InfoJson := ⟨"foo", [1, 1], "1.1", []⟩

def exInfo12 : InfoJson := ⟨"foo", [1, 2], "1.1", []⟩

def exRel12 : Release := ⟨[1, 2], "1.1", "/dl/foo", "foo_1.2.zip", 7, exInfo12⟩

def exRelOld : Release := ⟨[1, 1], "1.1", "/dl/foo", "foo_1.1.zip", 5, exInfo11⟩

def exRelBadGame : Release := ⟨[1, 3], "0.17", "/dl/foo", "foo_1.3.zip", 4, ⟨"foo", [1, 3], "0.17", []⟩⟩

def exLocal12 : Mod := ⟨exInfo12, true, "foo_1.2"⟩

def exCfg : Config := ⟨"1.1", [1, 1, 37], []⟩

def exCfgHold : Config := ⟨"1.1", [1, 1, 37], ["foo"]⟩

def emptyApi : Catalog := fun _ => none

def exMixMod : CatalogMod := ⟨[exRel12, exRelBadGame, exRelOld]⟩

def apiFooMix : Catalog := fun n => if n == "foo" then some exMixMod else none

def apiFoo12 : Catalog := fun n => if n == "foo" then some ⟨[exRel12]⟩ else none

def apiFooEmpty : Catalog := fun n => if n == "foo" then some ⟨[]⟩ else none

def exDepBar : Requirement := ⟨"bar", Specifier.any⟩

def exRelBar : Release := ⟨[2, 0], "1.1", "/dl/bar", "bar_2.0.zip", 9, ⟨"bar", [2, 0], "1.1", []⟩⟩

def exRelFooDeps : Release :=
  ⟨[1, 0], "1.1", "/dl/foo", "foo_1.0.zip", 6,
   ⟨"foo", [1, 0], "1.1",
    [exDepBar, ⟨"base", Specifier.ge [1, 0]⟩, ⟨"?opt", Specifier.any⟩]⟩⟩

def apiBar : Catalog := fun n => if n == "bar" then some ⟨[exRelBar]⟩ else none

/-- Options as `fac install` without any flag. -/
def exArgsPlain : Args := ⟨false, false, false, false, none⟩

/-- Options as `fac install --downgrade --no-deps`. -/
def exArgsDowngrade : Args := ⟨false, false, true, true, none⟩

/-- Mods directory holding two packed records of `foo` (versions 1.0 and 1.1). -/
def exSt2 : FacState := ⟨[⟨"foo_1.0", true, some exInfo10⟩, ⟨"foo_1.1", true, some exInfo11⟩], []⟩

/-- Mods directory holding one packed record of `foo` (version 1.0). -/
def exSt1 : FacState := ⟨[⟨"foo_1.0", true, some exInfo10⟩], []⟩

/-! ## Helper lemmas -/

theorem isPrefixOf_append_self (l m : List Char) : l.isPrefixOf (l ++ m) = true :=
  List.isPrefixOf_iff_prefix.mpr ⟨m, rfl⟩

theorem strPrefix_append (a b : String) : strPrefix a (a ++ b) = true := by
  unfold strPrefix
  rw [String.data_append]
  exact isPrefixOf_append_self _ _

/-- A string starting with a space is not the string `"No installed mods."`. -/
theorem space_ne_no_mods (z : String) (hz : z.data.head? = some ' ') :
    z ≠ "No installed mods." := by
  intro h
  rw [h] at hz
  exact absurd hz (by decide)

/-! ## C3 -/

/-- C3: the claim fails on the code and the spec is the clear intent.
`set_mod_enabled` compares the `bool` argument with the *string* stored in
the manifest entry (`enabled != mod.enabled`), and in Python a bool never
equals a string, so the "unchanged" branch is dead: even when the new value
equals the current effective enabled value (here `foo` is effectively
enabled and is set to `True`), the manifest is persisted and the call
reports a change.  The final conjunct shows the no-op branch is unreachable
for every input. -/
theorem c3_set_enabled_never_noop :
    is_mod_enabled [⟨"foo", "true"⟩] "foo" = true ∧
    (set_mod_enabled [⟨"foo", "true"⟩] "foo" true).changed = true ∧
    (set_mod_enabled [⟨"foo", "true"⟩] "foo" true).saved = true ∧
    (∀ (manifest : List ModJson) (name : String) (v : Bool),
      (set_mod_enabled manifest name v).changed = true) := by
  refine ⟨rfl, rfl, rfl, ?_⟩
  intro manifest name v
  unfold set_mod_enabled
  cases h : get_mod_json manifest name <;> simp [pyEq]

/-! ## C10 -/

/-- C10: `ListCommand.run` prints the `"Installed mods:"` header for every
state of the mods directory and the enable manifest, the empty directory
included; the `"No installed mods."` branch is unreachable because
`get_mods` returns a generator object, which is truthy even when it yields
nothing. -/
theorem c10_header_always (dir : ModsDir) (manifest : List ModJson) :
    (list_run dir manifest).head? = some "Installed mods:" ∧
    "No installed mods." ∉ list_run dir manifest := by
  constructor
  · rfl
  · intro hmem
    have hmem' : "No installed mods." = "Installed mods:" ∨
        "No installed mods." ∈ (sortPy (listKeyLe manifest) (get_mods dir none none)).map
          (fun m =>
            let tags : List String :=
              (if !(is_mod_enabled manifest m.info.name) then ["disabled"] else []) ++
              (if !m.packed then ["unpacked"] else [])
            let tagStr := if tags.isEmpty then "" else " (" ++ String.intercalate ", " tags ++ ")"
            "    " ++ m.info.name ++ " " ++ showVersion m.info.version ++ tagStr) :=
      List.mem_cons.mp hmem
    rcases hmem' with h | h
    · exact absurd h (by decide)
    · rcases List.mem_map.mp h with ⟨m, _, heq⟩
      refine space_ne_no_mods _ ?_ heq
      rfl

/-! ## C2 -/

/-- C2: counterexample.  With `foo 1.2` installed, no `--reinstall` and
`--downgrade` allowed, the remote candidates are `[1.2, 1.1]`.  The claim
says the equal candidate `1.2` is skipped and resolution continues with the
next candidate `1.1` (which, tried on its own, is accepted); the code
instead executes `break`, so the requirement contributes nothing. -/
theorem c2_counterexample :
    tryReleases exCfg exArgsDowngrade [] emptyApi (some exLocal12) [exRel12, exRelOld] = [] ∧
    tryReleases exCfg exArgsDowngrade [] emptyApi (some exLocal12) [exRelOld] = [exRelOld] :=
  ⟨rfl, rfl⟩

/-- C2 (amended): when the current candidate's version equals the local
version without the reinstall option, or is older without the downgrade
option, the candidate loop `break`s: the whole requirement is abandoned with
only the warning, no later candidate is tried, and nothing is contributed to
the install plan. -/
theorem c2_skip_breaks (cfg : Config) (args : Args) (dir : ModsDir) (api : Catalog)
    (local_mod : Option Mod) (release : Release) (rest : List Release)
    (h : releaseSkipped args local_mod release = true) :
    tryReleases cfg args dir api local_mod (release :: rest) = [] := by
  simp [tryReleases, h]

/-- C2 (amended) witness at a concrete input: the equal-version candidate
with a further candidate behind it. -/
theorem c2_skip_breaks_witness :
    tryReleases exCfg exArgsDowngrade [] emptyApi (some exLocal12) (exRel12 :: []) = [] :=
  c2_skip_breaks exCfg exArgsDowngrade [] emptyApi (some exLocal12) exRel12 [] (by decide)

/-! ## C9 -/

/-- C9: counterexample.  `foo` is in the hold set, `--held` is not given,
and the remote catalog lists no release for `foo`, so the filtered candidate
list is empty.  The claim predicts the "no match" outcome (empty check
first); the code checks the hold set first and reports the hold. -/
theorem c9_counterexample :
    processRequirement exCfgHold exArgsPlain [] apiFooEmpty ⟨"foo", Specifier.any⟩ =
      ReqResult.held ∧
    resolve_remote_requirement exCfgHold apiFooEmpty ⟨"foo", Specifier.any⟩ = Except.ok [] ∧
    ReqResult.held ≠ ReqResult.noMatch :=
  ⟨rfl, rfl, by decide⟩

/-- C9 (amended): the hold check comes *before* the empty-candidate check:
once the remote lookup succeeds, a held requirement (without `--held`) is
rejected as held whatever its candidate list; the "no match" report is
reached only for non-held requirements whose filtered candidate list is
empty. -/
theorem c9_hold_before_empty (cfg : Config) (args : Args) (dir : ModsDir) (api : Catalog)
    (req : Requirement) (m : CatalogMod) (hapi : api req.name = some m) :
    (args.held = false → cfg.hold.contains req.name = true →
      processRequirement cfg args dir api req = ReqResult.held) ∧
    (cfg.hold.contains req.name = false →
      resolve_remote_requirement cfg api req = Except.ok [] →
      processRequirement cfg args dir api req = ReqResult.noMatch) := by
  constructor
  · intro h1 h2
    unfold processRequirement resolve_remote_requirement
    rw [hapi, h1, h2]
    rfl
  · intro h1 h2
    unfold processRequirement
    rw [h2, h1]
    simp

/-- C9 (amended) witness: a held requirement with a nonempty candidate list
is reported as held. -/
theorem c9_hold_before_empty_witness :
    processRequirement exCfgHold exArgsPlain [] apiFoo12 ⟨"foo", Specifier.any⟩ =
      ReqResult.held :=
  (c9_hold_before_empty exCfgHold exArgsPlain [] apiFoo12 ⟨"foo", Specifier.any⟩
    ⟨[exRel12]⟩ rfl).1 rfl rfl

/-! ## C5 -/

/-- C5: when the downloaded byte count differs from the release's declared
`file_size`, `install_mod` raises the size-mismatch error before anything is
written: no file appears at the final mods-path location and the mods
directory (and manifest) are exactly as before.  The hypotheses are the
file-name assertions that precede the download in the source. -/
theorem c5_size_mismatch (st : FacState) (release : Release) (dataLen : Nat)
    (enable unpackArg : Option Bool)
    (h1 : strContainsChar release.file_name '/' = false)
    (h2 : strContainsChar release.file_name '\\' = false)
    (h3 : strSuffix ".zip" release.file_name = true)
    (hne : dataLen ≠ release.file_size) :
    install_mod st release dataLen enable unpackArg =
      (some (InstallError.sizeMismatch dataLen release.file_size), st) := by
  simp [install_mod, h1, h2, h3, bne_iff_ne, hne]

/-- C5 witness: a download three bytes long against a declared size of
seven leaves the (empty) state untouched. -/
theorem c5_size_mismatch_witness :
    install_mod ⟨[], []⟩ exRel12 3 none none =
      (some (InstallError.sizeMismatch 3 7), ⟨[], []⟩) :=
  c5_size_mismatch ⟨[], []⟩ exRel12 3 none none (by decide) (by decide) (by decide) (by decide)

/-! ## C1 -/

/-- C1: `resolve_local_requirement` returns exactly the local scan results of
the requirement's name — every installed version found by the directory scan
(which itself skips unreadable or corrupt entries) — filtered to those whose
version satisfies the requirement's specifier and whose `factorio_version`
equals the configured major/minor game version.  It is a total function of
the directory state: no state makes it raise.  (`get_installed_mods` is
modelled from the spec, see its doc comment.) -/
theorem c1_resolve_local_scan (cfg : Config) (dir : ModsDir) (req : Requirement)
    (i : InfoJson) :
    i ∈ resolve_local_requirement cfg dir req ↔
      ((∃ m ∈ get_mods dir (some req.name) none, m.info = i ∧ i.name = req.name) ∧
        req.specifier.contains i.version = true ∧
        i.factorio_version = cfg.game_version_major) := by
  unfold resolve_local_requirement get_installed_mods
  simp only [List.mem_filter, List.mem_map, Bool.and_eq_true, beq_iff_eq]
  constructor
  · rintro ⟨⟨m, ⟨hm, hname⟩, rfl⟩, hc, hf⟩
    exact ⟨⟨m, hm, rfl, hname⟩, hc, hf⟩
  · rintro ⟨⟨m, hm, rfl, hname⟩, hc, hf⟩
    exact ⟨⟨m, ⟨hm, hname⟩, rfl⟩, hc, hf⟩

/-! ## C6 -/

/-- C6: when the catalog knows the requirement's name,
`resolve_remote_requirement` returns exactly those releases of the catalog's
list whose version satisfies the requirement's specifier and whose
`game_version` equals the configured major/minor version; the result is a
sublist of the catalog's list, so the remote order is preserved without
re-sorting. -/
theorem c6_remote_filter (cfg : Config) (api : Catalog) (req : Requirement)
    (m : CatalogMod) (hapi : api req.name = some m) :
    ∃ l, resolve_remote_requirement cfg api req = Except.ok l ∧
      List.Sublist l m.releases ∧
      ∀ r : Release, r ∈ l ↔ (r ∈ m.releases ∧
        req.specifier.contains r.version = true ∧
        r.game_version = cfg.game_version_major) := by
  refine ⟨m.releases.filter (fun release =>
      req.specifier.contains release.version && release.game_version == cfg.game_version_major),
    ?_, List.filter_sublist _, ?_⟩
  · unfold resolve_remote_requirement
    rw [hapi]
  · intro r
    simp [List.mem_filter, and_assoc]

/-- C6 witness: a catalog list with one matching release, one filtered out
by its game version and one by the version constraint. -/
theorem c6_remote_filter_witness :
    ∃ l, resolve_remote_requirement exCfg apiFooMix ⟨"foo", Specifier.ge [1, 2]⟩ =
        Except.ok l ∧
      List.Sublist l exMixMod.releases ∧
      ∀ r : Release, r ∈ l ↔ (r ∈ exMixMod.releases ∧
        (Specifier.ge [1, 2]).contains r.version = true ∧
        r.game_version = exCfg.game_version_major) :=
  c6_remote_filter exCfg apiFooMix ⟨"foo", Specifier.ge [1, 2]⟩ exMixMod rfl

/-! ## C7 -/

/-- C7: when the current candidate passes the local-version check and every
one of its dependencies resolves (`deps_ok`), the requirement contributes
exactly the newly-needed dependency releases — in declaration order, as
accumulated by `expandDeps` — followed by the chosen candidate itself, and
the loop breaks: the remaining (older) candidates `rest` do not influence
the result. -/
theorem c7_plan_shape (cfg : Config) (args : Args) (dir : ModsDir) (api : Catalog)
    (local_mod : Option Mod) (release : Release) (rest : List Release)
    (hskip : releaseSkipped args local_mod release = false)
    (hok : (expandDeps cfg dir api
        (if args.no_deps then [] else release.info_json.dependencies)).deps_ok = true) :
    tryReleases cfg args dir api local_mod (release :: rest) =
      (expandDeps cfg dir api
        (if args.no_deps then [] else release.info_json.dependencies)).deps_to_install
        ++ [release] := by
  simp [tryReleases, hskip, hok]

/-- C7 witness: a candidate with a real dependency (`bar`, resolved remotely
to its first release), a satisfied `base` dependency and an optional `?opt`
dependency, followed by a stale candidate list tail. -/
theorem c7_plan_shape_witness :
    tryReleases exCfg exArgsPlain [] apiBar none [exRelFooDeps] =
      [exRelBar, exRelFooDeps] := by
  have h := c7_plan_shape exCfg exArgsPlain [] apiBar none exRelFooDeps []
    (by decide) (by decide)
  exact h.trans (by decide)

/-! ## C8 -/

theorem c8aux_queries (cfg : Config) (dir : ModsDir) (api : Catalog)
    (deps : List Requirement) (q : String)
    (hq : q ∈ (expandDeps cfg dir api deps).local_queries ∨
      q ∈ (expandDeps cfg dir api deps).remote_queries) :
    q ≠ "base" ∧ strPrefix "?" q = false := by
  induction deps with
  | nil => simp [expandDeps] at hq
  | cons d rest ih =>
    by_cases h1 : strPrefix "?" d.name = true
    · exact ih (by simpa [expandDeps, h1] using hq)
    · by_cases h2 : (d.name == "base") = true
      · by_cases h3 : d.specifier.contains cfg.game_version = true
        · exact ih (by simpa [expandDeps, h1, h2, h3] using hq)
        · simp [expandDeps, h1, h2, h3] at hq
      · by_cases h4 : (resolve_local_requirement cfg dir d).isEmpty = false
        · have hq' : q = d.name ∨
              (q ∈ (expandDeps cfg dir api rest).local_queries ∨
                q ∈ (expandDeps cfg dir api rest).remote_queries) := by
            simpa [expandDeps, h1, h2, h4, List.mem_cons, or_assoc] using hq
          rcases hq' with rfl | hq'
          · exact ⟨by simpa using h2, by simpa using h1⟩
          · exact ih hq'
        · rcases hrr : resolve_remote_requirement cfg api d with herr | hok
          · have hq' : q = d.name := by
              simpa [expandDeps, h1, h2, h4, hrr] using hq
            subst hq'
            exact ⟨by simpa using h2, by simpa using h1⟩
          · rcases hok with _ | ⟨deprel, others⟩
            · have hq' : q = d.name := by
                simpa [expandDeps, h1, h2, h4, hrr] using hq
              subst hq'
              exact ⟨by simpa using h2, by simpa using h1⟩
            · have hq' : q = d.name ∨
                  (q ∈ (expandDeps cfg dir api rest).local_queries ∨
                    q ∈ (expandDeps cfg dir api rest).remote_queries) := by
                simpa [expandDeps, h1, h2, h4, hrr, List.mem_cons, or_assoc, or_left_comm]
                  using hq
              rcases hq' with rfl | hq'
              · exact ⟨by simpa using h2, by simpa using h1⟩
              · exact ih hq'

theorem c8aux_filter (cfg : Config) (dir : ModsDir) (api : Catalog)
    (deps : List Requirement) :
    expandDeps cfg dir api deps =
      expandDeps cfg dir api (deps.filter (fun d => !(strPrefix "?" d.name))) := by
  induction deps with
  | nil => rfl
  | cons d rest ih =>
    by_cases h1 : strPrefix "?" d.name = true
    · simp [expandDeps, h1, List.filter_cons, ih]
    · have hf : (d :: rest).filter (fun d => !(strPrefix "?" d.name)) =
          d :: rest.filter (fun d => !(strPrefix "?" d.name)) := by
        simp [List.filter_cons, h1]
      rw [hf]
      show expandDeps cfg dir api (d :: rest) =
        expandDeps cfg dir api (d :: rest.filter (fun d => !(strPrefix "?" d.name)))
      simp only [expandDeps]
      rw [ih]

theorem c8aux_base (cfg : Config) (dir : ModsDir) (api : Catalog)
    (deps : List Requirement) :
    ∀ d ∈ deps, d.name = "base" → d.specifier.contains cfg.game_version = false →
      (expandDeps cfg dir api deps).deps_ok = false := by
  induction deps with
  | nil => intro d hd; simp at hd
  | cons d0 rest ih =>
    intro d hd hbase hsat
    rcases List.mem_cons.mp hd with rfl | hd'
    · have h1 : strPrefix "?" d.name = false := by rw [hbase]; decide
      have h2 : (d.name == "base") = true := by rw [hbase]; decide
      simp [expandDeps, h1, h2, hsat]
    · have htail := ih d hd' hbase hsat
      by_cases h1 : strPrefix "?" d0.name = true
      · simpa [expandDeps, h1] using htail
      · by_cases h2 : (d0.name == "base") = true
        · by_cases h3 : d0.specifier.contains cfg.game_version = true
          · simpa [expandDeps, h1, h2, h3] using htail
          · simp [expandDeps, h1, h2, h3]
        · by_cases h4 : (resolve_local_requirement cfg dir d0).isEmpty = false
          · simpa [expandDeps, h1, h2, h4] using htail
          · rcases hrr : resolve_remote_requirement cfg api d0 with herr | hok
            · simp [expandDeps, h1, h2, h4, hrr]
            · rcases hok with _ | ⟨deprel, others⟩
              · simp [expandDeps, h1, h2, h4, hrr]
              · simpa [expandDeps, h1, h2, h4, hrr] using htail

/-- C8: during dependency expansion, (a) every name passed to
`resolve_local_requirement` or `resolve_remote_requirement` is neither
`base` nor `?`-prefixed — so the synthetic `base` dependency is never
resolved against the mod catalog, locally or remotely, and optional
dependencies are never resolved either; (b) `?`-prefixed dependencies are
skipped entirely: dropping them from the list does not change the expansion
at all; (c) an unsatisfied `base` dependency (its constraint rejects the
configured game version) makes the candidate fail dependency expansion. -/
theorem c8_base_never_resolved (cfg : Config) (dir : ModsDir) (api : Catalog)
    (deps : List Requirement) :
    (∀ q ∈ (expandDeps cfg dir api deps).local_queries ++
        (expandDeps cfg dir api deps).remote_queries,
      q ≠ "base" ∧ strPrefix "?" q = false) ∧
    expandDeps cfg dir api deps =
      expandDeps cfg dir api (deps.filter (fun d => !(strPrefix "?" d.name))) ∧
    (∀ d ∈ deps, d.name = "base" → d.specifier.contains cfg.game_version = false →
      (expandDeps cfg dir api deps).deps_ok = false) :=
  ⟨fun q hq => c8aux_queries cfg dir api deps q (List.mem_append.mp hq),
   c8aux_filter cfg dir api deps,
   c8aux_base cfg dir api deps⟩

/-- C8 witness: a candidate whose dependencies are an optional one and a
`base` constraint rejecting the configured game version fails expansion. -/
theorem c8_base_never_resolved_witness :
    (expandDeps exCfg [] emptyApi
      [⟨"?x", Specifier.any⟩, ⟨"base", Specifier.lt [1, 0]⟩]).deps_ok = false :=
  (c8_base_never_resolved exCfg [] emptyApi
      [⟨"?x", Specifier.any⟩, ⟨"base", Specifier.lt [1, 0]⟩]).2.2
    ⟨"base", Specifier.lt [1, 0]⟩ (by simp) rfl (by decide)

/-! ## C4 -/

/-- C4: counterexample.  With two packed records of `foo` (1.0 and 1.1) on
disk, installing `foo 1.2` succeeds but leaves *two* records of `foo`: the
code removes only `next(self.get_mods(mod_name))` — the first record the
scan finds — so `foo_1.1` survives next to the new `foo_1.2`. -/
theorem c4_counterexample :
    (install_mod exSt2 exRel12 7 none (some false)).1 = none ∧
    (validRecords (install_mod exSt2 exRel12 7 none (some false)).2.dir "foo").length = 2 :=
  ⟨rfl, rfl⟩

/-- A well-formed record of a name matches the glob pattern of the scan for
that name. -/
theorem wf_glob (name : String) (f : DiskFile)
    (hwf : wellFormedRecord f = true) (hn : isNameRecord name f = true) :
    globMatch (some name) none f.basename = true := by
  rcases f with ⟨bn, pk, info⟩
  cases info with
  | none => simp [wellFormedRecord] at hwf
  | some i =>
    simp only [wellFormedRecord] at hwf
    simp only [isNameRecord] at hn
    have hb : bn = i.name ++ "_" ++ showVersion i.version := beq_iff_eq.mp hwf
    have hnn : i.name = name := beq_iff_eq.mp hn
    subst hnn
    subst hb
    simp only [globMatch]
    exact strPrefix_append _ _

/-- When no directory entry matches the scan glob for a name, the scan is
empty. -/
theorem get_mods_of_filter_nil (dir : ModsDir) (name : String)
    (h : dir.filter (fun f => globMatch (some name) none f.basename) = []) :
    get_mods dir (some name) none = [] := by
  have hg := List.filter_eq_nil_iff.mp h
  unfold get_mods findRecords
  have h1 : ∀ pk : Bool,
      dir.filter (fun f => f.packed == pk && globMatch (some name) none f.basename) = [] := by
    intro pk
    apply List.filter_eq_nil_iff.mpr
    intro f hf
    simp only [Bool.and_eq_true, not_and]
    intro _
    exact hg f hf
  rw [h1 true, h1 false]
  rfl

/-- When exactly one directory entry matches the scan glob for a name, and
it is well formed, the scan yields exactly the corresponding record. -/
theorem get_mods_of_filter_single (dir : ModsDir) (name : String) (f0 : DiskFile)
    (i0 : InfoJson)
    (h : dir.filter (fun f => globMatch (some name) none f.basename) = [f0])
    (hinfo : f0.info = some i0)
    (hwf : f0.basename = i0.name ++ "_" ++ showVersion i0.version) :
    get_mods dir (some name) none = [⟨i0, f0.packed, f0.basename⟩] := by
  have hpk : ∀ pk : Bool,
      dir.filter (fun f => f.packed == pk && globMatch (some name) none f.basename) =
        List.filter (fun f => f.packed == pk) [f0] := by
    intro pk
    rw [← h, List.filter_filter]
  have hscan : scanMod f0 = some ⟨i0, f0.packed, f0.basename⟩ := by
    unfold scanMod
    rw [hinfo]
    simp [hwf]
  unfold get_mods findRecords
  rw [hpk true, hpk false]
  cases hp : f0.packed with
  | true => simp [List.filter, hp, hscan]
  | false => simp [List.filter, hp, hscan]

theorem p_imp_glob (name : String) (f : DiskFile)
    (hp : (wellFormedRecord f && isNameRecord name f) = true) :
    globMatch (some name) none f.basename = true := by
  have hp' : wellFormedRecord f = true ∧ isNameRecord name f = true := by simpa using hp
  exact wf_glob name f hp'.1 hp'.2

theorem glob_expected (name s : String) :
    globMatch (some name) none (name ++ "_" ++ s) = true := by
  simp only [globMatch]
  exact strPrefix_append _ _

theorem uniq_of_filter_single {α : Type} (dir : List α) (g : α → Bool) (f0 : α)
    (h : dir.filter g = [f0]) : ∀ f ∈ dir, g f = true → f = f0 := by
  intro f hf hg
  have hmem : f ∈ dir.filter g := List.mem_filter.mpr ⟨hf, hg⟩
  rw [h] at hmem
  simpa using hmem

set_option maxHeartbeats 1000000 in
/-- C4 (amended): after `install_mod` returns successfully, at most one
on-disk record (packed or unpacked) of the release's mod name remains,
*provided* the prior state had at most one directory entry matching the scan
glob `name_*` and every such entry was a well-formed record of that mod.
The code removes only `next(self.get_mods(mod_name))`, the first scan
result, so with several pre-existing records — or glob-matching records of
other mods shadowing the scan — extra records can survive
(see the counterexample). -/
theorem c4_at_most_one (st : FacState) (release : Release) (dataLen : Nat)
    (enable unpackArg : Option Bool) (st' : FacState)
    (hA : ∀ f ∈ st.dir, globMatch (some release.info_json.name) none f.basename = true →
      wellFormedRecord f = true ∧ isNameRecord release.info_json.name f = true)
    (hB : (st.dir.filter (fun f =>
        globMatch (some release.info_json.name) none f.basename)).length ≤ 1)
    (hsucc : install_mod st release dataLen enable unpackArg = (none, st')) :
    (validRecords st'.dir release.info_json.name).length ≤ 1 := by
  have hcases : st.dir.filter (fun f =>
        globMatch (some release.info_json.name) none f.basename) = []
      ∨ ∃ f0, st.dir.filter (fun f =>
        globMatch (some release.info_json.name) none f.basename) = [f0] := by
    cases hfe : st.dir.filter (fun f =>
        globMatch (some release.info_json.name) none f.basename) with
    | nil => exact Or.inl rfl
    | cons f0 rest =>
      cases rest with
      | nil => exact Or.inr ⟨f0, rfl⟩
      | cons f1 t =>
        rw [hfe] at hB
        simp at hB
  rcases hcases with hnil | ⟨f0, hone⟩
  · -- no prior record matches the scan glob
    have hget : get_mods st.dir (some release.info_json.name) none = [] :=
      get_mods_of_filter_nil _ _ hnil
    have hgnone := List.filter_eq_nil_iff.mp hnil
    have hple : ∀ (q : DiskFile → Bool) (l2 : List DiskFile),
        (∀ f, q f = true → globMatch (some release.info_json.name) none f.basename = true) →
        ((st.dir ++ l2).filter q).length ≤ (l2.filter q).length := by
      intro q l2 hq
      rw [List.filter_append]
      have hleft : st.dir.filter q = [] := by
        apply List.filter_eq_nil_iff.mpr
        intro f hf hp
        exact hgnone f hf (hq f hp)
      rw [hleft]
      simp
    rcases unpackArg with _ | u
    · -- unpack defaulted: no prior record, so no unpacking happens
      simp only [install_mod, hget, List.head?_nil] at hsucc
      split at hsucc
      · simp at hsucc
      split at hsucc
      · simp at hsucc
      split at hsucc
      · simp at hsucc
      split at hsucc
      · simp at hsucc
      split at hsucc
      · simp at hsucc
      split at hsucc
      · rename_i hopt
        exact absurd hopt (by decide)
      rename_i ha1 ha2 ha3 hsz hbne hopt
      have hb : splitextStem release.file_name =
          release.info_json.name ++ "_" ++ showVersion release.info_json.version := by
        by_contra hc
        exact hbne (bne_iff_ne.mpr hc)
      injection hsucc with hfst hstate
      subst hstate
      have hany : (st.dir.any fun f =>
          f.packed && f.basename == splitextStem release.file_name) = false := by
        apply List.any_eq_false.mpr
        intro f hf hp
        have hp' : f.packed = true ∧ (f.basename == splitextStem release.file_name) = true := by
          simpa using hp
        apply hgnone f hf
        rw [beq_iff_eq.mp hp'.2, hb]
        exact glob_expected _ _
      show (validRecords (writeZip st.dir (splitextStem release.file_name) release.info_json)
        release.info_json.name).length ≤ 1
      unfold validRecords writeZip
      rw [hany]
      simp only [Bool.false_eq_true, if_false]
      refine le_trans (hple _ _ (fun f hp => p_imp_glob _ _ hp)) ?_
      simpa using List.length_filter_le _ _
    · -- explicit unpack flag
      simp only [install_mod, hget, List.head?_nil] at hsucc
      split at hsucc
      · simp at hsucc
      split at hsucc
      · simp at hsucc
      split at hsucc
      · simp at hsucc
      split at hsucc
      · simp at hsucc
      split at hsucc
      · simp at hsucc
      split at hsucc
      · -- unpack requested (u = true): the fresh zip is unpacked
        split at hsucc
        · simp at hsucc
        rename_i ha1 ha2 ha3 hsz hbne hopt hmk
        have hb : splitextStem release.file_name =
            release.info_json.name ++ "_" ++ showVersion release.info_json.version := by
          by_contra hc
          exact hbne (bne_iff_ne.mpr hc)
        injection hsucc with hfst hstate
        subst hstate
        have hany : (st.dir.any fun f =>
            f.packed && f.basename == splitextStem release.file_name) = false := by
          apply List.any_eq_false.mpr
          intro f hf hp
          have hp' : f.packed = true ∧
              (f.basename == splitextStem release.file_name) = true := by
            simpa using hp
          apply hgnone f hf
          rw [beq_iff_eq.mp hp'.2, hb]
          exact glob_expected _ _
        show (validRecords (removeRecord
            (writeZip st.dir (splitextStem release.file_name) release.info_json ++
              [⟨splitextStem release.file_name, false, some release.info_json⟩])
            (splitextStem release.file_name) true) release.info_json.name).length ≤ 1
        unfold validRecords removeRecord writeZip
        rw [hany]
        simp only [Bool.false_eq_true, if_false]
        rw [List.filter_filter, List.append_assoc]
        simp only [List.cons_append, List.nil_append]
        refine le_trans (hple _ _ ?_) ?_
        · intro f hp
          simp only [Bool.and_eq_true] at hp
          apply p_imp_glob
          simp only [Bool.and_eq_true]
          exact hp.1
        · simp [hb, wellFormedRecord, isNameRecord]
      · -- unpack explicitly disabled (u = false)
        rename_i ha1 ha2 ha3 hsz hbne hopt
        have hb : splitextStem release.file_name =
            release.info_json.name ++ "_" ++ showVersion release.info_json.version := by
          by_contra hc
          exact hbne (bne_iff_ne.mpr hc)
        injection hsucc with hfst hstate
        subst hstate
        have hany : (st.dir.any fun f =>
            f.packed && f.basename == splitextStem release.file_name) = false := by
          apply List.any_eq_false.mpr
          intro f hf hp
          have hp' : f.packed = true ∧
              (f.basename == splitextStem release.file_name) = true := by
            simpa using hp
          apply hgnone f hf
          rw [beq_iff_eq.mp hp'.2, hb]
          exact glob_expected _ _
        show (validRecords (writeZip st.dir (splitextStem release.file_name) release.info_json)
          release.info_json.name).length ≤ 1
        unfold validRecords writeZip
        rw [hany]
        simp only [Bool.false_eq_true, if_false]
        refine le_trans (hple _ _ (fun f hp => p_imp_glob _ _ hp)) ?_
        simpa using List.length_filter_le _ _
  · -- exactly one entry matches the scan glob
    rcases f0 with ⟨bn0, pk0, info0⟩
    have hf0filt : (⟨bn0, pk0, info0⟩ : DiskFile) ∈ st.dir.filter (fun f =>
        globMatch (some release.info_json.name) none f.basename) := by
      rw [hone]
      exact List.mem_singleton_self _
    have hf0mem : (⟨bn0, pk0, info0⟩ : DiskFile) ∈ st.dir := (List.mem_filter.mp hf0filt).1
    have hgf0 : globMatch (some release.info_json.name) none bn0 = true :=
      (List.mem_filter.mp hf0filt).2
    obtain ⟨hwf0, hname0⟩ := hA _ hf0mem hgf0
    rcases info0 with _ | i0
    · simp [wellFormedRecord] at hwf0
    have hbase0 : bn0 = i0.name ++ "_" ++ showVersion i0.version := by
      simpa [wellFormedRecord] using hwf0
    have hn0 : i0.name = release.info_json.name := by
      simpa [isNameRecord] using hname0
    have hget : get_mods st.dir (some release.info_json.name) none = [⟨i0, pk0, bn0⟩] :=
      get_mods_of_filter_single _ _ _ _ hone rfl hbase0
    have huniq : ∀ f ∈ st.dir,
        globMatch (some release.info_json.name) none f.basename = true →
        f = ⟨bn0, pk0, some i0⟩ :=
      uniq_of_filter_single _ _ _ hone
    have hcount : List.countP (fun f =>
        globMatch (some release.info_json.name) none f.basename) st.dir = 1 := by
      rw [List.countP_eq_length_filter, hone]
      rfl
    have hfil_le : ∀ q : DiskFile → Bool,
        (∀ f ∈ st.dir, q f = true →
          globMatch (some release.info_json.name) none f.basename = true) →
        (st.dir.filter q).length ≤ 1 := by
      intro q hq
      rw [← List.countP_eq_length_filter]
      exact le_trans (List.countP_mono_left hq) (le_of_eq hcount)
    have hfil_zero : ∀ q : DiskFile → Bool, (∀ f ∈ st.dir, ¬(q f = true)) →
        st.dir.filter q = [] := by
      intro q hq
      exact List.filter_eq_nil_iff.mpr hq
    have hmap_le : ∀ (q : DiskFile → Bool) (h : DiskFile → DiskFile),
        (∀ f ∈ st.dir, q (h f) = true →
          globMatch (some release.info_json.name) none f.basename = true) →
        ((st.dir.map h).filter q).length ≤ 1 := by
      intro q h hq
      rw [← List.countP_eq_length_filter, List.countP_map]
      exact le_trans (List.countP_mono_left hq) (le_of_eq hcount)
    have hmap_zero : ∀ (q : DiskFile → Bool) (h : DiskFile → DiskFile),
        (∀ f ∈ st.dir, ¬(q (h f) = true)) → (st.dir.map h).filter q = [] := by
      intro q h hq
      apply List.filter_eq_nil_iff.mpr
      intro x hx
      rcases List.mem_map.mp hx with ⟨a, ha, rfl⟩
      exact hq a ha
    simp only [install_mod, hget, List.head?_cons] at hsucc
    split at hsucc
    · simp at hsucc
    split at hsucc
    · simp at hsucc
    split at hsucc
    · simp at hsucc
    split at hsucc
    · simp at hsucc
    split at hsucc
    · simp at hsucc
    rename_i ha1 ha2 ha3 hsz hbne
    have hb : splitextStem release.file_name =
        release.info_json.name ++ "_" ++ showVersion release.info_json.version := by
      by_contra hc
      exact hbne (bne_iff_ne.mpr hc)
    -- writeZip appends a fresh zip entry unless the prior record is the
    -- packed record of the very same basename (then it is overwritten)
    have hWapp : ¬(pk0 = true ∧ bn0 = splitextStem release.file_name) →
        writeZip st.dir (splitextStem release.file_name) release.info_json =
          st.dir ++ [⟨splitextStem release.file_name, true, some release.info_json⟩] := by
      intro hbn
      unfold writeZip
      have hany : (st.dir.any fun f =>
          f.packed && f.basename == splitextStem release.file_name) = false := by
        apply List.any_eq_false.mpr
        intro f hf hp
        have hp' : f.packed = true ∧
            (f.basename == splitextStem release.file_name) = true := by
          simpa using hp
        have hgf : globMatch (some release.info_json.name) none f.basename = true := by
          rw [beq_iff_eq.mp hp'.2, hb]
          exact glob_expected _ _
        have hff0 := huniq f hf hgf
        rw [hff0] at hp'
        exact hbn ⟨hp'.1, beq_iff_eq.mp hp'.2⟩
      rw [hany]
      simp only [Bool.false_eq_true, if_false]
    have hWmap : (pk0 = true ∧ bn0 = splitextStem release.file_name) →
        writeZip st.dir (splitextStem release.file_name) release.info_json =
          st.dir.map (fun f =>
            if f.packed && f.basename == splitextStem release.file_name then
              ⟨splitextStem release.file_name, true, some release.info_json⟩ else f) := by
      rintro ⟨hpk, hbn⟩
      unfold writeZip
      have hany : (st.dir.any fun f =>
          f.packed && f.basename == splitextStem release.file_name) = true := by
        apply List.any_eq_true.mpr
        refine ⟨⟨bn0, pk0, some i0⟩, hf0mem, ?_⟩
        simp [hpk, hbn]
      rw [hany]
      simp only [if_true]
    have hcnt_rem_noup : ¬(pk0 = true ∧ bn0 = splitextStem release.file_name) →
        (validRecords (removeRecord
            (writeZip st.dir (splitextStem release.file_name) release.info_json) bn0 pk0)
          release.info_json.name).length ≤ 1 := by
      intro hbn
      rw [hWapp hbn]
      unfold validRecords removeRecord
      rw [List.filter_filter, List.filter_append]
      rw [hfil_zero _ ?_]
      · simpa using List.length_filter_le _
          [(⟨splitextStem release.file_name, true, some release.info_json⟩ : DiskFile)]
      · intro f hf hq
        have hq' : ((wellFormedRecord f && isNameRecord release.info_json.name f) = true ∧
            (!(f.basename == bn0 && f.packed == pk0)) = true) := by
          simpa [Bool.and_eq_true] using hq
        have hff0 := huniq f hf (p_imp_glob _ _ hq'.1)
        have hk := hq'.2
        rw [hff0] at hk
        simp at hk
    have hcnt_rem_up : ¬(pk0 = true ∧ bn0 = splitextStem release.file_name) →
        (validRecords (removeRecord
            (removeRecord
              (writeZip st.dir (splitextStem release.file_name) release.info_json) bn0 pk0 ++
             [⟨splitextStem release.file_name, false, some release.info_json⟩])
            (splitextStem release.file_name) true)
          release.info_json.name).length ≤ 1 := by
      intro hbn
      rw [hWapp hbn]
      unfold validRecords removeRecord
      rw [List.filter_filter, List.filter_append, List.filter_filter, List.filter_append]
      rw [hfil_zero _ ?_]
      · have hzip : List.filter (fun a =>
            (wellFormedRecord a && isNameRecord release.info_json.name a &&
              !(a.basename == splitextStem release.file_name && a.packed == true)) &&
            !(a.basename == bn0 && a.packed == pk0))
            [(⟨splitextStem release.file_name, true, some release.info_json⟩ : DiskFile)] = [] := by
          simp
        rw [hzip]
        simpa using List.length_filter_le _
          [(⟨splitextStem release.file_name, false, some release.info_json⟩ : DiskFile)]
      · intro f hf hq
        have hq' : (((wellFormedRecord f && isNameRecord release.info_json.name f) = true ∧
            (!(f.basename == splitextStem release.file_name && f.packed == true)) = true) ∧
            (!(f.basename == bn0 && f.packed == pk0)) = true) := by
          simpa [Bool.and_eq_true] using hq
        have hff0 := huniq f hf (p_imp_glob _ _ hq'.1.1)
        have hk := hq'.2
        rw [hff0] at hk
        simp at hk
    have hcnt_norem_noup : (pk0 = true ∧ bn0 = splitextStem release.file_name) →
        (validRecords (writeZip st.dir (splitextStem release.file_name) release.info_json)
          release.info_json.name).length ≤ 1 := by
      intro hpkbn
      rw [hWmap hpkbn]
      unfold validRecords
      apply hmap_le
      intro f hf hph
      by_cases hcond : (f.packed && f.basename == splitextStem release.file_name) = true
      · have hbn : f.basename = splitextStem release.file_name :=
          beq_iff_eq.mp (by simpa using hcond : f.packed = true ∧ _).2
        rw [hbn, hb]
        exact glob_expected _ _
      · rw [if_neg hcond] at hph
        exact p_imp_glob _ _ hph
    have hcnt_norem_up : (pk0 = true ∧ bn0 = splitextStem release.file_name) →
        (validRecords (removeRecord
            (writeZip st.dir (splitextStem release.file_name) release.info_json ++
             [⟨splitextStem release.file_name, false, some release.info_json⟩])
            (splitextStem release.file_name) true)
          release.info_json.name).length ≤ 1 := by
      intro hpkbn
      rw [hWmap hpkbn]
      unfold validRecords removeRecord
      rw [List.filter_filter, List.filter_append]
      rw [hmap_zero _ _ ?_]
      · simpa using List.length_filter_le _
          [(⟨splitextStem release.file_name, false, some release.info_json⟩ : DiskFile)]
      · intro f hf hq
        by_cases hcond : (f.packed && f.basename == splitextStem release.file_name) = true
        · rw [if_pos hcond] at hq
          simp at hq
        · rw [if_neg hcond] at hq
          have hq' : ((wellFormedRecord f && isNameRecord release.info_json.name f) = true ∧
              (!(f.basename == splitextStem release.file_name && f.packed == true)) = true) := by
            simpa [Bool.and_eq_true] using hq
          have hff0 := huniq f hf (p_imp_glob _ _ hq'.1)
          apply hcond
          rw [hff0]
          simp [hpkbn.1, hpkbn.2]
    rcases unpackArg with _ | u
    · -- unpack defaulted to "unpack if the prior record was unpacked"
      split at hsucc
      · -- prior record unpacked: the fresh zip is unpacked again
        rename_i hu
        have hpk0 : pk0 = false := by simpa using hu
        subst hpk0
        split at hsucc
        · -- prior (unpacked) record removed, fresh zip unpacked
          split at hsucc
          · simp at hsucc
          injection hsucc with hfst hstate
          subst hstate
          exact hcnt_rem_up (by simp)
        · -- the removal branch cannot be skipped for an unpacked prior record
          rename_i hremF
          simp at hremF
      · -- prior record packed: no unpacking
        rename_i hu
        have hpk0 : pk0 = true := by simpa using hu
        subst hpk0
        split at hsucc
        · -- prior basename differs: prior record removed
          rename_i hrem
          injection hsucc with hfst hstate
          subst hstate
          refine hcnt_rem_noup ?_
          rintro ⟨hpk, hbn⟩
          rw [hbn] at hrem
          simp at hrem
        · -- same basename, packed: overwritten in place
          rename_i hremF
          have hbn : bn0 = splitextStem release.file_name := by
            simpa [bne_iff_ne] using hremF
          injection hsucc with hfst hstate
          subst hstate
          exact hcnt_norem_noup ⟨rfl, hbn⟩
    · -- explicit unpack flag
      split at hsucc
      · -- unpack requested
        split at hsucc
        · -- prior record removed (basename differs or unpacked)
          split at hsucc
          · simp at hsucc
          rename_i hrem hmk
          injection hsucc with hfst hstate
          subst hstate
          refine hcnt_rem_up ?_
          rintro ⟨hpk, hbn⟩
          rw [hpk, hbn] at hrem
          simp at hrem
        · -- prior record kept (same packed basename, overwritten)
          split at hsucc
          · simp at hsucc
          rename_i hremF hmk
          have hyes : bn0 = splitextStem release.file_name ∧ pk0 = true := by
            simpa [bne_iff_ne] using hremF
          injection hsucc with hfst hstate
          subst hstate
          exact hcnt_norem_up ⟨hyes.2, hyes.1⟩
      · -- unpack disabled
        split at hsucc
        · rename_i hu hrem
          injection hsucc with hfst hstate
          subst hstate
          refine hcnt_rem_noup ?_
          rintro ⟨hpk, hbn⟩
          rw [hpk, hbn] at hrem
          simp at hrem
        · rename_i hu hremF
          have hyes : bn0 = splitextStem release.file_name ∧ pk0 = true := by
            simpa [bne_iff_ne] using hremF
          injection hsucc with hfst hstate
          subst hstate
          exact hcnt_norem_noup ⟨hyes.2, hyes.1⟩

/-- C4 (amended) witness: one packed prior record `foo_1.0`; installing
`foo 1.2` replaces it, leaving exactly one record. -/
theorem c4_at_most_one_witness :
    (validRecords (⟨[⟨"foo_1.2", true, some exInfo12⟩], []⟩ : FacState).dir "foo").length ≤ 1 :=
  c4_at_most_one exSt1 exRel12 7 none (some false)
    ⟨[⟨"foo_1.2", true, some exInfo12⟩], []⟩ (by decide) (by decide) (by decide)

end Fac
